import Mathlib

set_option autoImplicit false
set_option maxHeartbeats 1000000

/-! Formal model of the snarkOS Narwhal `Primary` (`node/narwhal/src/primary.rs`).

Pure data is modelled with `Nat`/`Int`.  External collaborators (the committee
arithmetic, the storage layer, the gateway, the cryptography and the worker
network I/O) are not part of the translated sources; they are modelled from the
specification, and each such definition says so in its doc comment.  Machine
integer operations are made explicit where the source performs casts or
saturating arithmetic: `u64 as i64` is a two's-complement reinterpretation,
`u64` addition and `i64` subtraction and `abs` wrap around (Rust release-mode
overflow semantics), and `i64::saturating_sub` clamps to the `i64` range. -/

/-- Validator address (opaque). -/
abbrev Addr := Nat

/-- Reinterpretation of a `u64` value as an `i64` (Rust `as i64` cast). -/
def toI64 (n : Nat) : Int :=
  if n % 2 ^ 64 < 2 ^ 63 then ((n % 2 ^ 64 : Nat) : Int)
  else ((n % 2 ^ 64 : Nat) : Int) - 2 ^ 64

/-- Wrap an integer into the `i64` range (two's-complement overflow). -/
def wrapI64 (a : Int) : Int := (a + 2 ^ 63) % 2 ^ 64 - 2 ^ 63

/-- Absolute value on `i64`, wrapping at `i64::MIN` (release-mode `abs`). -/
def i64Abs (a : Int) : Int := wrapI64 (if a < 0 then -a else a)

/-- Saturating subtraction on `i64` (`i64::saturating_sub`). -/
def satSub64 (a b : Int) : Int := max (-(2 ^ 63)) (min (a - b) (2 ^ 63 - 1))

/-- Wrapping `u64` addition (release-mode `+`). -/
def u64add (a b : Nat) : Nat := (a + b) % 2 ^ 64

/-- A signature; `signer` is the address recovered by `Signature::to_address`,
and `sid` distinguishes distinct signature values by the same signer. -/
structure Signature where
  signer : Addr
  sid : Nat
deriving DecidableEq

/-- Modelled from the spec: the committee view (`helpers::Committee` is not
among the translated sources): a "mapping address → stake" authoritative at a
`round`, together with its quorum threshold. -/
structure Committee where
  round : Nat
  stakes : List (Addr × Nat)
  quorumThreshold : Nat
deriving DecidableEq

/-- Modelled from the spec: membership means the address holds a stake entry. -/
def Committee.is_committee_member (c : Committee) (a : Addr) : Bool :=
  c.stakes.any fun p => decide (p.1 = a)

/-- Modelled from the spec: "quorum threshold = smallest stake-weighted
majority"; the test holds when the stake held by the given addresses meets the
committee's threshold.  The source passes a `HashSet`; this computation is
insensitive to order and duplication of the address list, so a list argument is
faithful.  The source signature returns `Result`, but the spec describes no
failure condition, so the model is total. -/
def Committee.is_quorum_threshold_reached (c : Committee) (addrs : List Addr) : Bool :=
  decide (c.quorumThreshold ≤
    ((c.stakes.filter fun p => addrs.any fun a => decide (a = p.1)).map Prod.snd).sum)

/-- Modelled from the spec: `Committee::to_next_round` (external to the
translated sources); "at minimum round increments by one", membership and
threshold carry over. -/
def Committee.to_next_round (c : Committee) : Committee := { c with round := c.round + 1 }

/-- A batch header: author, round, timestamp, transmission ids, previous
certificate ids, and the author's signature over the header. -/
structure BatchHeader where
  batchId : Nat
  author : Addr
  round : Nat
  timestamp : Int
  transmissionIds : List Nat
  previousCertificateIds : List Nat
  signature : Signature
deriving DecidableEq

/-- A batch certificate: a header plus the collected peer signatures. -/
structure BatchCertificate where
  certificateId : Nat
  header : BatchHeader
  signatures : List (Signature × Int)
deriving DecidableEq

/-- The certificate's round, delegated to its header. -/
def BatchCertificate.round (c : BatchCertificate) : Nat := c.header.round

/-- The certificate's author, delegated to its header. -/
def BatchCertificate.author (c : BatchCertificate) : Addr := c.header.author

/-- A batch: the proposed transmissions, the previous-round certificates, and
the proposer's own signature (whose address is the batch author). -/
structure Batch where
  batchId : Nat
  round : Nat
  timestamp : Int
  transmissions : List (Nat × Nat)
  previousCertificates : List BatchCertificate
  signature : Signature
deriving DecidableEq

/-- Modelled from the spec: `Batch::to_header` (external): the header carries
the batch id, the author (the address of the batch's own signature), round,
timestamp, the transmission ids and the previous-certificate ids.  The source
returns `Result`; the spec treats the header as a content projection, so the
model is total. -/
def Batch.to_header (b : Batch) : BatchHeader :=
  { batchId := b.batchId, author := b.signature.signer, round := b.round,
    timestamp := b.timestamp, transmissionIds := b.transmissions.map Prod.fst,
    previousCertificateIds := b.previousCertificates.map BatchCertificate.certificateId,
    signature := b.signature }

/-- Modelled from the spec: the storage layer (external to the translated
sources): a "durable associative store for certificates indexed by id and by
round, for transmissions indexed by id, and for committees indexed by round",
with a GC round and a GC depth, plus the set of batch ids it has certified. -/
structure Storage where
  gcRound : Nat
  maxGcRounds : Nat
  batchIds : List Nat
  certificates : List BatchCertificate
  committees : List (Nat × Committee)
  transmissions : List Nat
deriving DecidableEq

/-- Modelled from the spec: `Storage::contains_batch`. -/
def Storage.contains_batch (s : Storage) (id : Nat) : Bool :=
  s.batchIds.any fun b => decide (b = id)

/-- Modelled from the spec: `Storage::contains_certificate`. -/
def Storage.contains_certificate (s : Storage) (id : Nat) : Bool :=
  s.certificates.any fun c => decide (c.certificateId = id)

/-- Modelled from the spec: `Storage::contains_transmission`. -/
def Storage.contains_transmission (s : Storage) (id : Nat) : Bool :=
  s.transmissions.any fun t => decide (t = id)

/-- Modelled from the spec: `Storage::get_certificate`. -/
def Storage.get_certificate (s : Storage) (id : Nat) : Option BatchCertificate :=
  s.certificates.find? fun c => decide (c.certificateId = id)

/-- Modelled from the spec: `Storage::get_certificates_for_round`. -/
def Storage.get_certificates_for_round (s : Storage) (r : Nat) : List BatchCertificate :=
  s.certificates.filter fun c => decide (c.round = r)

/-- Modelled from the spec: `Storage::get_committee_for_round`. -/
def Storage.get_committee_for_round (s : Storage) (r : Nat) : Option Committee :=
  (s.committees.find? fun p => decide (p.1 = r)).map Prod.snd

/-- Modelled from the spec: `Storage::insert_certificate` keeps the certificate;
whether the insertion call succeeds is decided by an oracle in `Env`. -/
def Storage.insert_certificate (s : Storage) (c : BatchCertificate) : Storage :=
  { s with certificates := s.certificates ++ [c] }

/-- Modelled from the spec: `Storage::insert_committee`, keyed by the
committee's round; a later insertion for a round shadows an earlier one. -/
def Storage.insert_committee (s : Storage) (c : Committee) : Storage :=
  { s with committees := (c.round, c) :: s.committees }

/-- Outbound events the Primary hands to the gateway. -/
inductive Event where
  | batchPropose (header : BatchHeader)
  | batchSignature (peer : Nat) (batchId : Nat) (signature : Signature) (timestamp : Int)
  | batchCertified (certificate : BatchCertificate)
deriving DecidableEq

/-- Modelled from the spec: the environment bundles every external collaborator
the `Primary` calls: the clock, the gateway resolver, the cryptography, the
external constructors of snarkVM objects, the storage insertion verdict, and
the network round-trips of the backfill routines (which certificates and
transmissions concurrent ingestion has placed into storage by the time a fetch
completes, and whether the fetch round-trip succeeds at all). -/
structure Env where
  now : Int
  maxExpirationTimeInSecs : Int
  maxTimestampDeltaInSecs : Int
  resolveAddr : Nat → Option Addr
  verify : Signature → Addr → Nat → Int → Bool
  signSig : Nat → Int → Signature
  mkBatch : Nat → List (Nat × Nat) → List BatchCertificate → Batch
  mkCertOk : BatchHeader → List (Signature × Int) → Bool
  certId : BatchHeader → List (Signature × Int) → Nat
  insertOk : BatchCertificate → Bool
  fetchTransmissionsOk : List Nat → Bool
  fetchedTransmissions : List Nat → List Nat
  fetchCertificatesOk : List Nat → Bool
  fetchedCertificates : List Nat → List BatchCertificate

/-- The Primary's shared state: the committee view, the storage handle, the
workers' pending transmission maps (in ascending worker-id order), the
proposed-batch slot with its signature map, and the pending certificate table. -/
structure PState where
  committee : Committee
  storage : Storage
  workers : List (List (Nat × Nat))
  proposedBatch : Option (Batch × List (Signature × Int))
  pending : List Nat
deriving DecidableEq

/-- Insertion-ordered map insertion (`IndexMap::insert`): an existing key keeps
its position and its value is updated; a new key is appended. -/
def imInsert {K V : Type} [DecidableEq K] : List (K × V) → K → V → List (K × V)
  | [], k, v => [(k, v)]
  | p :: rest, k, v => if p.1 = k then (k, v) :: rest else p :: imInsert rest k v

/-- Insertion-ordered map lookup. -/
def imLookup {K V : Type} [DecidableEq K] : List (K × V) → K → Option V
  | [], _ => none
  | p :: rest, k => if p.1 = k then some p.2 else imLookup rest k

/-- `IndexMap::extend`: insert every pair of `l`, in order, into `m`. -/
def imExtend {K V : Type} [DecidableEq K] (m l : List (K × V)) : List (K × V) :=
  l.foldl (fun acc p => imInsert acc p.1 p.2) m

/-- The transmission map built by `propose_batch`: start from the empty map and
`extend` it with each worker's drained map, in ascending worker-id order. -/
def unionTransmissions (ws : List (List (Nat × Nat))) : List (Nat × Nat) :=
  ws.foldl (fun acc w => imExtend acc w) []

/-- Value of the last binding of a key in a pair list, if any. -/
def lastLookup {K V : Type} [DecidableEq K] : List (K × V) → K → Option V
  | [], _ => none
  | p :: rest, k =>
    match lastLookup rest k with
    | some v => some v
    | none => if p.1 = k then some p.2 else none

/-- First-some choice on options. -/
def oElse {V : Type} : Option V → Option V → Option V
  | some v, _ => some v
  | none, o => o

/-- `update_committee_to_next_round`: compute the next committee, persist it in
storage, replace the in-memory committee, clear the proposed slot, and return
the new round number. -/
def update_committee_to_next_round (st : PState) : PState × Nat :=
  let next := st.committee.to_next_round
  ({ st with committee := next,
             storage := st.storage.insert_committee next,
             proposedBatch := none },
   next.round)

/-- The `while committee.round < round` advancement loop, with an explicit
iteration bound: each `update_committee_to_next_round` increments the round by
one, so `round - committee.round` iterations always suffice. -/
def advanceLoop : Nat → PState → Nat → PState
  | 0, st, _ => st
  | n + 1, st, round =>
    if st.committee.round < round then advanceLoop n (update_committee_to_next_round st).1 round
    else st

/-- Advance the committee until its round is at least `round`. -/
def advanceUntil (st : PState) (round : Nat) : PState :=
  advanceLoop (round - st.committee.round) st round

/-- `check_proposed_batch_for_expiration`: clear the slot when the batch is
older than `MAX_EXPIRATION_TIME_IN_SECS`. -/
def check_proposed_batch_for_expiration (env : Env) (st : PState) : PState :=
  match st.proposedBatch with
  | some (batch, _) =>
    if env.maxExpirationTimeInSecs < satSub64 env.now batch.timestamp
    then { st with proposedBatch := none } else st
  | none => st

/-- Modelled from the spec: `fetch_missing_transmissions` (its worker one-shot
channels are network I/O): the ids absent from storage are requested from the
peer; the oracle decides whether the round-trip succeeds and which transmissions
are in storage once it completes. -/
def fetch_missing_transmissions (env : Env) (st : PState) (ids : List Nat) : Option PState :=
  let missing := ids.filter fun id => ! st.storage.contains_transmission id
  if env.fetchTransmissionsOk missing then
    some { st with storage :=
      { st.storage with transmissions := st.storage.transmissions ++ env.fetchedTransmissions missing } }
  else none

/-- Modelled from the spec: `fetch_missing_certificates` (the pending table's
one-shot waiters are fulfilled by concurrent response handlers): the ids neither
pending nor in storage are requested; the oracle decides whether the round-trip
succeeds and which certificates concurrent ingestion has inserted into storage
by the time it completes. -/
def fetch_missing_certificates (env : Env) (st : PState) (ids : List Nat) : Option PState :=
  let missing := ids.filter fun id =>
    (! st.pending.any fun p => decide (p = id)) && ! st.storage.contains_certificate id
  if env.fetchCertificatesOk missing then
    some { st with storage :=
      { st.storage with certificates := st.storage.certificates ++ env.fetchedCertificates missing } }
  else none

/-- `propose_batch`: return early on a populated slot; test readiness from the
previous round's certificates; on readiness drain the workers, build the batch,
broadcast its header and fill the slot.  `none` models the `bail!` on a missing
previous committee. -/
def propose_batch (env : Env) (st : PState) : Option (PState × List Event) :=
  if st.proposedBatch.isSome then some (st, [])
  else
    let round := st.committee.round
    let previous_round := round - 1
    let previous_certificates := st.storage.get_certificates_for_round previous_round
    let ready : Option Bool :=
      if previous_round = 0 then some true
      else
        match st.storage.get_committee_for_round previous_round with
        | none => none
        | some committee =>
          some (committee.is_quorum_threshold_reached (previous_certificates.map BatchCertificate.author))
    match ready with
    | none => none
    | some false => some (st, [])
    | some true =>
      let batch := env.mkBatch round (unionTransmissions st.workers) previous_certificates
      some ({ st with workers := st.workers.map fun _ => [],
                      proposedBatch := some (batch, []) },
            [Event.batchPropose batch.to_header])

/-- The previous-certificate resolution loop of `process_batch_propose_from_peer`:
every listed id must resolve in storage to a certificate of the previous round;
the authors are collected (the source stores them in a `HashSet`; the quorum
test is insensitive to order and duplication). -/
def collectPreviousAuthors (s : Storage) (previous_round : Nat) : List Nat → Option (List Addr)
  | [] => some []
  | id :: rest =>
    match s.get_certificate id with
    | none => none
    | some c =>
      if c.round = previous_round then
        match collectPreviousAuthors s previous_round rest with
        | none => none
        | some tail => some (c.author :: tail)
      else none

/-- Tail of `process_batch_propose_from_peer` for rounds above 1: resolve the
previous certificates, look up the previous committee, check its quorum, and on
success sign `(batch_id, now)` and unicast the `BatchSignature` reply. -/
def proposeCheckPrevious (env : Env) (st : PState) (peer : Nat) (h : BatchHeader) :
    Option (PState × List Event) :=
  match collectPreviousAuthors st.storage (h.round - 1) h.previousCertificateIds with
  | none => none
  | some previous_authors =>
    match st.storage.get_committee_for_round (h.round - 1) with
    | none => none
    | some previous_committee =>
      if previous_committee.is_quorum_threshold_reached previous_authors then
        some (st, [Event.batchSignature peer h.batchId (env.signSig h.batchId env.now) env.now])
      else none

/-- `process_batch_propose_from_peer`: the guard ladder of the source, in
order: known batch id (ack or error by the wrapped `i64` round distance), GC
range, certificate backfill for future rounds, stale round, committee
membership of the author, timestamp window, and for rounds above 1 the
transmission and certificate backfill followed by the previous-round quorum
checks.  `none` models a `bail!`. -/
def process_batch_propose_from_peer (env : Env) (st : PState) (peer : Nat) (h : BatchHeader) :
    Option (PState × List Event) :=
  if st.storage.contains_batch h.batchId then
    if 2 < i64Abs (wrapI64 (toI64 st.committee.round - toI64 h.round)) then none
    else some (st, [])
  else if u64add st.committee.round st.storage.maxGcRounds ≤ h.round then none
  else
    match (if st.committee.round < h.round
           then fetch_missing_certificates env st h.previousCertificateIds
           else some st) with
    | none => none
    | some st1 =>
      if u64add h.round 1 < st1.committee.round then none
      else if ! st1.committee.is_committee_member h.author then none
      else if env.now + env.maxTimestampDeltaInSecs < h.timestamp then none
      else if 0 < h.round - 1 then
        match fetch_missing_transmissions env st1 h.transmissionIds with
        | none => none
        | some st2 =>
          match fetch_missing_certificates env st2 h.previousCertificateIds with
          | none => none
          | some st3 => proposeCheckPrevious env st3 peer h
      else
        some (st1, [Event.batchSignature peer h.batchId (env.signSig h.batchId env.now) env.now])

/-- Result of `process_batch_signature_from_peer`: the new state, the emitted
events, whether the call returned an error, and the source's `is_ready` flag
(whether the call proceeded to certification). -/
structure SigRes where
  st : PState
  events : List Event
  err : Bool
  ready : Bool
deriving DecidableEq

/-- The guard ladder of `process_batch_signature_from_peer`, in source order:
the batch id must match the slot, the peer must resolve to an address, the
address must be a committee member, and the signature must verify over
`(batch_id, timestamp)`.  Returns the resolved address when all pass; every
failure is a silent drop in the source. -/
def sigGuardAddr (env : Env) (st : PState) (peer : Nat) (bid : Nat) (sig : Signature)
    (ts : Int) : Option Addr :=
  match st.proposedBatch with
  | none => none
  | some (batch, _) =>
    if batch.batchId = bid then
      match env.resolveAddr peer with
      | none => none
      | some address =>
        if st.committee.is_committee_member address then
          if env.verify sig address bid ts then some address else none
        else none
    else none

/-- The expiration check followed by the signature-map insertion of
`process_batch_signature_from_peer` (the insertion is skipped when the slot
was cleared by expiration). -/
def sigInsertState (env : Env) (st : PState) (sig : Signature) (ts : Int) : PState :=
  let st1 := check_proposed_batch_for_expiration env st
  { st1 with proposedBatch := st1.proposedBatch.map fun p => (p.1, imInsert p.2 sig ts) }

/-- The source's `is_ready` computation: the addresses of the collected
signatures chained with the batch's own signature must reach the current
committee's quorum threshold. -/
def sigReady (st : PState) : Bool :=
  match st.proposedBatch with
  | some (batch, sigs) =>
    st.committee.is_quorum_threshold_reached
      ((sigs.map fun p => p.1.signer) ++ [batch.signature.signer])
  | none => false

/-- The certification block of `process_batch_signature_from_peer`: take the
slot, build the header and the certificate, insert it into storage, broadcast
`BatchCertified`, and advance the committee.  A failed certificate construction
drops with the slot cleared; a failed storage insertion surfaces an error.  The
`none` branch is unreachable from the handler since readiness requires a
populated slot. -/
def sigCertify (env : Env) (st : PState) : SigRes :=
  match st.proposedBatch with
  | none => ⟨st, [], false, true⟩
  | some (batch, sigs) =>
    let st1 := { st with proposedBatch := none }
    let header := batch.to_header
    if env.mkCertOk header sigs then
      let certificate : BatchCertificate := ⟨env.certId header sigs, header, sigs⟩
      if env.insertOk certificate then
        ⟨(update_committee_to_next_round { st1 with storage := st1.storage.insert_certificate certificate }).1,
         [Event.batchCertified certificate], false, true⟩
      else ⟨st1, [], true, true⟩
    else ⟨st1, [], false, true⟩

/-- `process_batch_signature_from_peer`: guards, expiration check, signature
insertion, readiness test, and certification. -/
def process_batch_signature_from_peer (env : Env) (st : PState) (peer : Nat) (bid : Nat)
    (sig : Signature) (ts : Int) : SigRes :=
  match sigGuardAddr env st peer bid sig ts with
  | none => ⟨st, [], false, false⟩
  | some _ =>
    let stI := sigInsertState env st sig ts
    if sigReady stI then sigCertify env stI else ⟨stI, [], false, false⟩

/-- The backfill prefix of `process_batch_certificate_from_peer`: fetch the
missing transmissions, and when the certificate round is above `gc_round + 1`
(re-read from storage, with wrapping `u64` addition) fetch the missing previous
certificates. -/
def certFetchPipeline (env : Env) (st : PState) (c : BatchCertificate) : Option PState :=
  match fetch_missing_transmissions env st c.header.transmissionIds with
  | none => none
  | some st1 =>
    if u64add st1.storage.gcRound 1 < c.round
    then fetch_missing_certificates env st1 c.header.previousCertificateIds
    else some st1

/-- `process_batch_certificate_from_peer`: discard at or below the GC round;
otherwise backfill, then insert the certificate when its id is new (an
insertion failure surfaces an error) and advance the committee while its round
is below the certificate round. -/
def process_batch_certificate_from_peer (env : Env) (st : PState) (c : BatchCertificate) :
    Option (PState × List Event) :=
  if c.round ≤ st.storage.gcRound then some (st, [])
  else
    match certFetchPipeline env st c with
    | none => none
    | some st2 =>
      if ! st2.storage.contains_certificate c.certificateId then
        if env.insertOk c then
          some (advanceUntil { st2 with storage := st2.storage.insert_certificate c } c.round, [])
        else none
      else some (st2, [])

/-- Round monotonicity with slot clearing: the round does not decrease, and a
strict increase leaves the proposed slot empty. -/
def roundMono (st st1 : PState) : Prop :=
  st.committee.round ≤ st1.committee.round ∧
    (st.committee.round < st1.committee.round → st1.proposedBatch = none)

/-- A concrete environment for closed instantiations: the clock reads 1000,
peer 7 resolves to address 2, every signature verifies, certificate
construction and storage insertion succeed, and backfill round-trips succeed
without delivering new data. -/
def envBase : Env where
  now := 1000
  maxExpirationTimeInSecs := 100
  maxTimestampDeltaInSecs := 100
  resolveAddr := fun p => if p = 7 then some 2 else none
  verify := fun _ _ _ _ => true
  signSig := fun _ _ => ⟨0, 0⟩
  mkBatch := fun r t p => ⟨99, r, 1000, t, p, ⟨0, 1⟩⟩
  mkCertOk := fun _ _ => true
  certId := fun h _ => h.batchId
  insertOk := fun _ => true
  fetchTransmissionsOk := fun _ => true
  fetchedTransmissions := fun _ => []
  fetchCertificatesOk := fun _ => true
  fetchedCertificates := fun _ => []

/-- A state whose storage already contains batch id 5, with committee round 1. -/
def st8 : PState :=
  ⟨⟨1, [(1, 1)], 1⟩, ⟨0, 10, [5], [], [], []⟩, [], none, []⟩

/-- A header for batch id 5 at the `u64` round `2 ^ 64 - 1`. -/
def h8 : BatchHeader := ⟨5, 1, 2 ^ 64 - 1, 0, [], [], ⟨1, 0⟩⟩

/-- A state with an empty slot and committee round 1 (previous round 0). -/
def st2W : PState :=
  ⟨⟨1, [(1, 1)], 1⟩, ⟨0, 10, [], [], [], []⟩, [[(1, 10)]], none, []⟩

/-- The locally proposed batch of the signature-handler scenarios: batch id 5,
round 1, timestamp 1000, authored by address 1. -/
def batchW : Batch := ⟨5, 1, 1000, [], [], ⟨1, 0⟩⟩

/-- A state proposing `batchW` under a quorum threshold of 3 (one co-signature
is not enough). -/
def stW7 : PState :=
  ⟨⟨1, [(1, 1), (2, 1), (3, 1)], 3⟩, ⟨0, 10, [], [], [], []⟩, [], some (batchW, []), []⟩

/-- A state proposing `batchW` under a quorum threshold of 2 (one co-signature
completes the quorum). -/
def stW1 : PState :=
  ⟨⟨1, [(1, 1), (2, 1), (3, 1)], 2⟩, ⟨0, 10, [], [], [], []⟩, [], some (batchW, []), []⟩

/-- A stored certificate at round 1 by author 3, with certificate id 9. -/
def prevCertW : BatchCertificate := ⟨9, ⟨8, 3, 1, 500, [], [], ⟨3, 0⟩⟩, []⟩

/-- A state at committee round 2 whose storage holds `prevCertW` and the
round-1 committee (author 3 alone reaches its threshold). -/
def stW4 : PState :=
  ⟨⟨2, [(1, 1)], 1⟩, ⟨0, 10, [], [prevCertW], [(1, ⟨1, [(3, 1)], 1⟩)], []⟩, [], none, []⟩

/-- A header at round 2 by author 1 referencing `prevCertW`. -/
def h4 : BatchHeader := ⟨5, 1, 2, 900, [], [9], ⟨1, 0⟩⟩

/-- A certificate at round 5 with id 9, no transmissions and no parents. -/
def c9W : BatchCertificate := ⟨9, ⟨8, 3, 5, 500, [], [], ⟨3, 0⟩⟩, []⟩

/-- A state whose storage already contains `c9W`. -/
def st9W : PState :=
  ⟨⟨1, [(1, 1)], 1⟩, ⟨0, 10, [], [c9W], [], []⟩, [], none, []⟩

/-- A certificate at round 3 with id 11, not contained in `st3W`. -/
def c3W : BatchCertificate := ⟨11, ⟨8, 3, 3, 500, [], [], ⟨3, 0⟩⟩, []⟩

/-- A state at committee round 1 with empty storage. -/
def st3W : PState :=
  ⟨⟨1, [(1, 1)], 1⟩, ⟨0, 10, [], [], [], []⟩, [], none, []⟩

theorem imInsert_imInsert {K V : Type} [DecidableEq K] (m : List (K × V)) (k : K) (v : V) :
    imInsert (imInsert m k v) k v = imInsert m k v := by
  induction m with
  | nil => simp [imInsert]
  | cons p rest ih =>
    by_cases h : p.1 = k
    · simp [imInsert, h]
    · simp [imInsert, h, ih]

theorem imLookup_imInsert {K V : Type} [DecidableEq K] (m : List (K × V)) (k k1 : K) (v : V) :
    imLookup (imInsert m k v) k1 = if k = k1 then some v else imLookup m k1 := by
  induction m with
  | nil => simp [imInsert, imLookup]
  | cons p rest ih =>
    by_cases h : p.1 = k
    · subst h
      by_cases h1 : p.1 = k1 <;> simp [imInsert, imLookup, h1]
    · by_cases h1 : p.1 = k1
      · have hk : ¬ k = k1 := fun e => h (h1.trans e.symm)
        have hk1 : ¬ k1 = k := fun e => h (h1.trans e)
        simp [imInsert, imLookup, h, h1, hk, hk1]
      · simp [imInsert, imLookup, h, h1, ih]

theorem oElse_none_right {V : Type} (o : Option V) : oElse o none = o := by
  cases o <;> rfl

theorem oElse_assoc {V : Type} (a b c : Option V) :
    oElse (oElse a b) c = oElse a (oElse b c) := by
  cases a <;> cases b <;> rfl

theorem lastLookup_append {K V : Type} [DecidableEq K] (l1 l2 : List (K × V)) (k : K) :
    lastLookup (l1 ++ l2) k = oElse (lastLookup l2 k) (lastLookup l1 k) := by
  induction l1 with
  | nil => simp [lastLookup, oElse_none_right]
  | cons p t ih =>
    show lastLookup (p :: (t ++ l2)) k = _
    rw [lastLookup, ih]
    cases hl2 : lastLookup l2 k <;> cases ht : lastLookup t k <;> simp [lastLookup, oElse, ht]

theorem imLookup_imExtend {K V : Type} [DecidableEq K] (l m : List (K × V)) (k : K) :
    imLookup (imExtend m l) k = oElse (lastLookup l k) (imLookup m k) := by
  induction l generalizing m with
  | nil => simp [imExtend, lastLookup, oElse]
  | cons p t ih =>
    show imLookup (imExtend (imInsert m p.1 p.2) t) k = _
    rw [ih, imLookup_imInsert]
    cases ht : lastLookup t k
    · by_cases hp : p.1 = k <;> simp [lastLookup, oElse, ht, hp]
    · simp [lastLookup, oElse, ht]

theorem imLookup_foldl_imExtend {K V : Type} [DecidableEq K] (ws : List (List (K × V)))
    (m : List (K × V)) (k : K) :
    imLookup (ws.foldl (fun acc w => imExtend acc w) m) k =
      oElse (lastLookup ws.flatten k) (imLookup m k) := by
  induction ws generalizing m with
  | nil => simp [lastLookup, oElse]
  | cons w t ih =>
    show imLookup (t.foldl (fun acc w => imExtend acc w) (imExtend m w)) k = _
    rw [ih, imLookup_imExtend]
    show _ = oElse (lastLookup (w ++ t.flatten) k) _
    rw [lastLookup_append, oElse_assoc]

/-- C6 (counterexample): with worker 0 exposing transmission `(1, 10)` and
worker 1 exposing `(1, 20)` for the same TransmissionId `1`, the unioned
transmission map built by `propose_batch` binds id `1` to `20`, the
transmission of the last such worker — not to `10`, the transmission of the
first such worker, as the claim states. -/
theorem c6_first_wins_counterexample :
    imLookup (unionTransmissions [[(1, 10)], [(1, 20)]]) 1 = some 20 ∧
      imLookup (unionTransmissions [[(1, 10)], [(1, 20)]]) 1 ≠ some 10 := by
  decide

/-- C6 (amended): in `propose_batch`, when the drained maps of two or more
workers contain the same TransmissionId, the batch's unioned transmissions
mapping binds that id to the transmission from the LAST such worker in
ascending worker-id order: the lookup of any id in the union equals the last
binding of that id in the concatenation of the drained worker maps. -/
theorem c6_union_binds_last_occurrence (ws : List (List (Nat × Nat))) (k : Nat) :
    imLookup (unionTransmissions ws) k = lastLookup ws.flatten k := by
  rw [unionTransmissions, imLookup_foldl_imExtend]
  exact oElse_none_right _

theorem i64Abs_small (a b : Nat) (ha : a < 2 ^ 62) (hb : b < 2 ^ 62) :
    i64Abs (wrapI64 (toI64 a - toI64 b)) = (((a : Int) - b).natAbs : Int) := by
  have hta : toI64 a = (a : Int) := by
    unfold toI64
    rw [Nat.mod_eq_of_lt (by omega), if_pos (by omega)]
  have htb : toI64 b = (b : Int) := by
    unfold toI64
    rw [Nat.mod_eq_of_lt (by omega), if_pos (by omega)]
  rw [hta, htb]
  have hw : wrapI64 ((a : Int) - (b : Int)) = (a : Int) - b := by
    unfold wrapI64
    have h1 : ((a : Int) - b + 2 ^ 63) % 2 ^ 64 = (a : Int) - b + 2 ^ 63 := by
      apply Int.emod_eq_of_lt <;> omega
    omega
  rw [hw]
  unfold i64Abs wrapI64
  have h2 : ((if (a : Int) - b < 0 then -((a : Int) - b) else (a : Int) - b) + 2 ^ 63) % 2 ^ 64 =
      (if (a : Int) - b < 0 then -((a : Int) - b) else (a : Int) - b) + 2 ^ 63 := by
    apply Int.emod_eq_of_lt <;> split <;> omega
  rw [h2]
  split <;> omega

/-- C8 (counterexample): with committee round 1 and a known batch id, a header
at the `u64` round `2 ^ 64 - 1` has a true round distance of `2 ^ 64 - 2 > 2`,
so the claim demands an error; yet the source computes the distance after
casting both rounds to `i64`, the header round reinterprets to `-1`, the
computed distance is `|1 - (-1)| = 2`, and the handler silently acks. -/
theorem c8_counterexample :
    st8.storage.contains_batch h8.batchId = true ∧
    2 < ((st8.committee.round : Int) - (h8.round : Int)).natAbs ∧
    process_batch_propose_from_peer envBase st8 0 h8 = some (st8, []) := by
  refine ⟨by decide, by decide, by decide⟩

/-- C8 (amended): when `process_batch_propose_from_peer` receives a header
whose batch id is already contained in storage, it returns an error exactly
when the absolute difference of the committee round and the header round,
computed after reinterpreting both `u64` rounds as `i64` with two's-complement
wraparound, exceeds 2, and returns success otherwise; in both cases no
signature is produced and no state changes.  Whenever both rounds are below
`2 ^ 62` this computed distance coincides with the absolute difference the
claim states. -/
theorem c8_known_batch_ack (env : Env) (st : PState) (peer : Nat) (h : BatchHeader)
    (hc : st.storage.contains_batch h.batchId = true) :
    (process_batch_propose_from_peer env st peer h = none ↔
      2 < i64Abs (wrapI64 (toI64 st.committee.round - toI64 h.round))) ∧
    (process_batch_propose_from_peer env st peer h = none ∨
      process_batch_propose_from_peer env st peer h = some (st, [])) ∧
    (st.committee.round < 2 ^ 62 → h.round < 2 ^ 62 →
      (process_batch_propose_from_peer env st peer h = none ↔
        2 < ((st.committee.round : Int) - (h.round : Int)).natAbs)) := by
  have hrw : process_batch_propose_from_peer env st peer h =
      (if 2 < i64Abs (wrapI64 (toI64 st.committee.round - toI64 h.round)) then none
       else some (st, [])) := by
    simp [process_batch_propose_from_peer, hc]
  refine ⟨?_, ?_, ?_⟩
  · rw [hrw]
    by_cases h2 : 2 < i64Abs (wrapI64 (toI64 st.committee.round - toI64 h.round)) <;>
      simp [h2]
  · rw [hrw]
    by_cases h2 : 2 < i64Abs (wrapI64 (toI64 st.committee.round - toI64 h.round)) <;>
      simp [h2]
  · intro hc1 hc2
    rw [hrw, i64Abs_small st.committee.round h.round hc1 hc2]
    by_cases h2 : 2 < ((st.committee.round : Int) - (h.round : Int)).natAbs
    · rw [if_pos (by exact_mod_cast h2)]
      simp [h2]
    · rw [if_neg (by exact_mod_cast h2)]
      simp [h2]

theorem c8_known_batch_ack_witness :
    st8.storage.contains_batch h8.batchId = true ∧
    (process_batch_propose_from_peer envBase st8 0 h8 = none ∨
      process_batch_propose_from_peer envBase st8 0 h8 = some (st8, [])) :=
  ⟨by decide, (c8_known_batch_ack envBase st8 0 h8 (by decide)).2.1⟩

/-- C2: with an empty slot, `propose_batch` always proposes when the previous
round is 0; when the previous round is positive it errors exactly when storage
holds no committee for that round, proposes when the stored committee's quorum
threshold is met by the authors of the stored previous-round certificates, and
otherwise returns success, leaving the state unchanged and emitting nothing. -/
theorem c2_propose_ready (env : Env) (st : PState) (hslot : st.proposedBatch = none) :
    (st.committee.round - 1 = 0 →
      ∃ b, propose_batch env st =
        some ({ st with workers := st.workers.map fun _ => [], proposedBatch := some (b, []) },
              [Event.batchPropose b.to_header])) ∧
    (0 < st.committee.round - 1 →
      (propose_batch env st = none ↔
        st.storage.get_committee_for_round (st.committee.round - 1) = none) ∧
      (∀ c, st.storage.get_committee_for_round (st.committee.round - 1) = some c →
        (c.is_quorum_threshold_reached
            ((st.storage.get_certificates_for_round (st.committee.round - 1)).map
              BatchCertificate.author) = true →
          ∃ b, propose_batch env st =
            some ({ st with workers := st.workers.map fun _ => [],
                            proposedBatch := some (b, []) },
                  [Event.batchPropose b.to_header])) ∧
        (c.is_quorum_threshold_reached
            ((st.storage.get_certificates_for_round (st.committee.round - 1)).map
              BatchCertificate.author) = false →
          propose_batch env st = some (st, [])))) := by
  constructor
  · intro hp
    exact ⟨env.mkBatch st.committee.round (unionTransmissions st.workers)
      (st.storage.get_certificates_for_round (st.committee.round - 1)),
      by simp [propose_batch, hslot, hp]⟩
  · intro hp
    have hne : st.committee.round - 1 ≠ 0 := Nat.pos_iff_ne_zero.mp hp
    cases hcom : st.storage.get_committee_for_round (st.committee.round - 1) with
    | none =>
      refine ⟨by simp [propose_batch, hslot, hne, hcom], ?_⟩
      intro c hc
      exact absurd hc (by simp)
    | some c0 =>
      refine ⟨?_, ?_⟩
      · by_cases hq : c0.is_quorum_threshold_reached
            ((st.storage.get_certificates_for_round (st.committee.round - 1)).map
              BatchCertificate.author) = true
        · simp [propose_batch, hslot, hne, hcom, hq]
        · simp only [Bool.not_eq_true] at hq
          simp [propose_batch, hslot, hne, hcom, hq]
      · intro c hc
        obtain rfl : c0 = c := by injection hc
        refine ⟨fun hq => ⟨env.mkBatch st.committee.round (unionTransmissions st.workers)
          (st.storage.get_certificates_for_round (st.committee.round - 1)),
          by simp [propose_batch, hslot, hne, hcom, hq]⟩,
          fun hq => by simp [propose_batch, hslot, hne, hcom, hq]⟩

theorem c2_propose_ready_witness :
    ∃ b, propose_batch envBase st2W =
      some ({ st2W with workers := st2W.workers.map fun _ => [], proposedBatch := some (b, []) },
            [Event.batchPropose b.to_header]) :=
  (c2_propose_ready envBase st2W (by decide)).1 (by decide)

theorem fetch_missing_transmissions_some (env : Env) (st : PState) (ids : List Nat)
    (st1 : PState) (h : fetch_missing_transmissions env st ids = some st1) :
    st1.committee = st.committee ∧ st1.proposedBatch = st.proposedBatch ∧
    st1.workers = st.workers ∧ st1.pending = st.pending ∧
    st1.storage.certificates = st.storage.certificates ∧
    st1.storage.gcRound = st.storage.gcRound ∧
    st1.storage.maxGcRounds = st.storage.maxGcRounds ∧
    st1.storage.committees = st.storage.committees ∧
    st1.storage.batchIds = st.storage.batchIds := by
  simp only [fetch_missing_transmissions] at h
  split at h
  · injection h with h
    subst h
    exact ⟨rfl, rfl, rfl, rfl, rfl, rfl, rfl, rfl, rfl⟩
  · exact absurd h (by simp)

theorem fetch_missing_certificates_some (env : Env) (st : PState) (ids : List Nat)
    (st1 : PState) (h : fetch_missing_certificates env st ids = some st1) :
    st1.committee = st.committee ∧ st1.proposedBatch = st.proposedBatch ∧
    st1.workers = st.workers ∧ st1.pending = st.pending ∧
    (∃ l, st1.storage.certificates = st.storage.certificates ++ l) ∧
    st1.storage.gcRound = st.storage.gcRound ∧
    st1.storage.maxGcRounds = st.storage.maxGcRounds ∧
    st1.storage.committees = st.storage.committees ∧
    st1.storage.batchIds = st.storage.batchIds ∧
    st1.storage.transmissions = st.storage.transmissions := by
  simp only [fetch_missing_certificates] at h
  split at h
  · injection h with h
    subst h
    exact ⟨rfl, rfl, rfl, rfl, ⟨_, rfl⟩, rfl, rfl, rfl, rfl, rfl⟩
  · exact absurd h (by simp)

theorem certFetchPipeline_some (env : Env) (st : PState) (c : BatchCertificate)
    (st2 : PState) (h : certFetchPipeline env st c = some st2) :
    st2.committee = st.committee ∧ st2.proposedBatch = st.proposedBatch ∧
    st2.workers = st.workers ∧ st2.pending = st.pending ∧
    st2.storage.gcRound = st.storage.gcRound ∧
    st2.storage.committees = st.storage.committees ∧
    (∃ l, st2.storage.certificates = st.storage.certificates ++ l) := by
  unfold certFetchPipeline at h
  cases hf : fetch_missing_transmissions env st c.header.transmissionIds with
  | none => rw [hf] at h; exact absurd h (by simp)
  | some st1 =>
    rw [hf] at h
    obtain ⟨h1c, h1p, h1w, h1pe, h1cert, h1gc, _, h1com, _⟩ :=
      fetch_missing_transmissions_some env st _ st1 hf
    simp only at h
    split at h
    · obtain ⟨h2c, h2p, h2w, h2pe, ⟨l, hl⟩, h2gc, _, h2com, _, _⟩ :=
        fetch_missing_certificates_some env st1 _ st2 h
      exact ⟨h2c.trans h1c, h2p.trans h1p, h2w.trans h1w, h2pe.trans h1pe,
        h2gc.trans h1gc, h2com.trans h1com, ⟨l, by rw [hl, h1cert]⟩⟩
    · injection h with h
      subst h
      exact ⟨h1c, h1p, h1w, h1pe, h1gc, h1com, ⟨[], by rw [h1cert, List.append_nil]⟩⟩

theorem advanceLoop_certificates (n : Nat) (st : PState) (r : Nat) :
    (advanceLoop n st r).storage.certificates = st.storage.certificates := by
  induction n generalizing st with
  | zero => rfl
  | succ n ih =>
    simp only [advanceLoop]
    split
    · rw [ih]
      rfl
    · rfl

theorem advanceLoop_round_le (n : Nat) (st : PState) (r : Nat) :
    st.committee.round ≤ (advanceLoop n st r).committee.round := by
  induction n generalizing st with
  | zero => exact le_refl _
  | succ n ih =>
    simp only [advanceLoop]
    split
    · exact le_trans (Nat.le_succ _) (ih (update_committee_to_next_round st).1)
    · exact le_refl _

theorem advanceLoop_ge (n : Nat) (st : PState) (r : Nat)
    (hn : r - st.committee.round ≤ n) : r ≤ (advanceLoop n st r).committee.round := by
  induction n generalizing st with
  | zero =>
    simp only [advanceLoop]
    omega
  | succ n ih =>
    simp only [advanceLoop]
    split
    · exact ih (update_committee_to_next_round st).1 (by
        show r - (st.committee.round + 1) ≤ n
        omega)
    · omega

theorem advanceLoop_eq_or_none (n : Nat) (st : PState) (r : Nat) :
    advanceLoop n st r = st ∨ (advanceLoop n st r).proposedBatch = none := by
  induction n generalizing st with
  | zero => exact Or.inl rfl
  | succ n ih =>
    simp only [advanceLoop]
    split
    · rcases ih (update_committee_to_next_round st).1 with h | h
      · exact Or.inr (by rw [h]; rfl)
      · exact Or.inr h
    · exact Or.inl rfl

/-- C9: when `process_batch_certificate_from_peer` receives a certificate whose
round is above the GC round but whose id storage already contains, it neither
re-inserts the certificate nor advances the committee: once the backfill
completes in a state `st2`, the handler returns success with exactly `st2`,
whose committee and proposed slot are those of the initial state. -/
theorem c9_known_certificate_frame (env : Env) (st : PState) (c : BatchCertificate)
    (hgc : st.storage.gcRound < c.round)
    (hin : st.storage.contains_certificate c.certificateId = true) :
    ∀ st2, certFetchPipeline env st c = some st2 →
      process_batch_certificate_from_peer env st c = some (st2, []) ∧
      st2.committee = st.committee ∧ st2.proposedBatch = st.proposedBatch := by
  intro st2 hp
  obtain ⟨hc2, hp2, _, _, _, _, l, hl⟩ := certFetchPipeline_some env st c st2 hp
  have hin2 : st2.storage.contains_certificate c.certificateId = true := by
    unfold Storage.contains_certificate at hin ⊢
    rw [hl, List.any_append, hin, Bool.true_or]
  unfold process_batch_certificate_from_peer
  rw [if_neg (by omega : ¬ c.round ≤ st.storage.gcRound), hp]
  simp [hin2, hc2, hp2]

theorem c9_known_certificate_frame_witness :
    process_batch_certificate_from_peer envBase st9W c9W = some (st9W, []) ∧
    st9W.committee = st9W.committee ∧ st9W.proposedBatch = st9W.proposedBatch :=
  c9_known_certificate_frame envBase st9W c9W (by decide) (by decide) st9W (by decide)

/-- C3: a certificate at or below the GC round is discarded with no state
change; otherwise, once the backfill completes in a state `st2` in which the
certificate id is still new, a successful insertion stores the certificate and
repeatedly advances the committee until its round is at least the certificate
round. -/
theorem c3_certificate_ingestion (env : Env) (st : PState) (c : BatchCertificate) :
    (c.round ≤ st.storage.gcRound →
      process_batch_certificate_from_peer env st c = some (st, [])) ∧
    (∀ st2, st.storage.gcRound < c.round → certFetchPipeline env st c = some st2 →
      st2.storage.contains_certificate c.certificateId = false → env.insertOk c = true →
      ∃ st3, process_batch_certificate_from_peer env st c = some (st3, []) ∧
        c ∈ st3.storage.certificates ∧ c.round ≤ st3.committee.round) := by
  constructor
  · intro hle
    simp [process_batch_certificate_from_peer, hle]
  · intro st2 hgc hp hnc hok
    refine ⟨advanceUntil { st2 with storage := st2.storage.insert_certificate c } c.round,
      ?_, ?_, ?_⟩
    · unfold process_batch_certificate_from_peer
      rw [if_neg (by omega), hp]
      simp [hnc, hok]
    · rw [advanceUntil, advanceLoop_certificates]
      simp [Storage.insert_certificate]
    · rw [advanceUntil]
      exact advanceLoop_ge _ _ _ (le_refl _)

theorem c3_certificate_ingestion_witness :
    ∃ st3, process_batch_certificate_from_peer envBase st3W c3W = some (st3, []) ∧
      c3W ∈ st3.storage.certificates ∧ c3W.round ≤ st3.committee.round :=
  (c3_certificate_ingestion envBase st3W c3W).2 st3W (by decide) (by decide) (by decide)
    (by decide)

theorem roundMono_of_eq (st st1 : PState) (h : st1.committee = st.committee) :
    roundMono st st1 := by
  unfold roundMono
  rw [h]
  exact ⟨le_refl _, fun hlt => absurd hlt (lt_irrefl _)⟩

theorem check_exp_committee (env : Env) (st : PState) :
    (check_proposed_batch_for_expiration env st).committee = st.committee := by
  unfold check_proposed_batch_for_expiration
  split
  · split <;> rfl
  · rfl

theorem check_exp_storage (env : Env) (st : PState) :
    (check_proposed_batch_for_expiration env st).storage = st.storage := by
  unfold check_proposed_batch_for_expiration
  split
  · split <;> rfl
  · rfl

theorem sigInsertState_committee (env : Env) (st : PState) (sig : Signature) (ts : Int) :
    (sigInsertState env st sig ts).committee = st.committee :=
  check_exp_committee env st

theorem sigInsertState_storage (env : Env) (st : PState) (sig : Signature) (ts : Int) :
    (sigInsertState env st sig ts).storage = st.storage :=
  check_exp_storage env st

theorem sigCertify_ready (env : Env) (st : PState) : (sigCertify env st).ready = true := by
  unfold sigCertify
  split
  · rfl
  · dsimp only
    split
    · split <;> rfl
    · rfl

theorem propose_batch_mono (env : Env) (st st1 : PState) (evs : List Event)
    (hs : propose_batch env st = some (st1, evs)) : roundMono st st1 := by
  simp only [propose_batch] at hs
  split at hs
  · injection hs with hs
    injection hs with h1 h2
    subst h1
    exact roundMono_of_eq _ _ rfl
  · split at hs
    · exact absurd hs (by simp)
    · injection hs with hs
      injection hs with h1 h2
      subst h1
      exact roundMono_of_eq _ _ rfl
    · injection hs with hs
      injection hs with h1 h2
      subst h1
      exact roundMono_of_eq _ _ rfl

theorem sig_from_peer_mono (env : Env) (st : PState) (peer bid : Nat) (sig : Signature)
    (ts : Int) : roundMono st (process_batch_signature_from_peer env st peer bid sig ts).st := by
  have hcom := sigInsertState_committee env st sig ts
  unfold process_batch_signature_from_peer
  split
  · exact roundMono_of_eq _ _ rfl
  · dsimp only
    split
    · unfold sigCertify
      split
      · exact roundMono_of_eq _ _ hcom
      · dsimp only
        split
        · split
          · refine ⟨?_, fun _ => rfl⟩
            show st.committee.round ≤ (sigInsertState env st sig ts).committee.round + 1
            rw [hcom]
            exact Nat.le_succ _
          · exact roundMono_of_eq _ _ hcom
        · exact roundMono_of_eq _ _ hcom
    · exact roundMono_of_eq _ _ hcom

theorem cert_from_peer_mono (env : Env) (st : PState) (c : BatchCertificate) (st1 : PState)
    (evs : List Event) (hs : process_batch_certificate_from_peer env st c = some (st1, evs)) :
    roundMono st st1 := by
  unfold process_batch_certificate_from_peer at hs
  split at hs
  · injection hs with hs
    injection hs with h1 h2
    subst h1
    exact roundMono_of_eq _ _ rfl
  · split at hs
    · exact absurd hs (by simp)
    · rename_i st2 hpipe
      obtain ⟨hc2, _, _, _, _, _, _⟩ := certFetchPipeline_some env st c st2 hpipe
      split at hs
      · split at hs
        · injection hs with hs
          injection hs with h1 h2
          subst h1
          constructor
          · rw [advanceUntil]
            refine le_trans ?_ (advanceLoop_round_le _ _ _)
            show st.committee.round ≤ st2.committee.round
            rw [hc2]
          · intro hlt
            rw [advanceUntil] at hlt ⊢
            rcases advanceLoop_eq_or_none
                (c.round - ({ st2 with storage := st2.storage.insert_certificate c }).committee.round)
                { st2 with storage := st2.storage.insert_certificate c } c.round with he | he
            · exfalso
              rw [he] at hlt
              dsimp only at hlt
              rw [hc2] at hlt
              exact lt_irrefl _ hlt
            · exact he
        · exact absurd hs (by simp)
      · injection hs with hs
        injection hs with h1 h2
        subst h1
        exact roundMono_of_eq _ _ hc2

theorem propose_from_peer_mono (env : Env) (st : PState) (peer : Nat) (h : BatchHeader)
    (st1 : PState) (evs : List Event)
    (hs : process_batch_propose_from_peer env st peer h = some (st1, evs)) :
    roundMono st st1 := by
  unfold process_batch_propose_from_peer at hs
  split at hs
  · split at hs
    · exact absurd hs (by simp)
    · injection hs with hs
      injection hs with h1 h2
      subst h1
      exact roundMono_of_eq _ _ rfl
  · split at hs
    · exact absurd hs (by simp)
    · split at hs
      · exact absurd hs (by simp)
      · rename_i stA hA
        have hAc : stA.committee = st.committee := by
          by_cases hcond : st.committee.round < h.round
          · rw [if_pos hcond] at hA
            exact (fetch_missing_certificates_some env st _ stA hA).1
          · rw [if_neg hcond] at hA
            injection hA with hA
            rw [hA]
        split at hs
        · exact absurd hs (by simp)
        · split at hs
          · exact absurd hs (by simp)
          · split at hs
            · exact absurd hs (by simp)
            · split at hs
              · split at hs
                · exact absurd hs (by simp)
                · rename_i st2 h2
                  split at hs
                  · exact absurd hs (by simp)
                  · rename_i st3 h3
                    have h2c : st2.committee = stA.committee :=
                      (fetch_missing_transmissions_some env stA _ st2 h2).1
                    have h3c : st3.committee = st2.committee :=
                      (fetch_missing_certificates_some env st2 _ st3 h3).1
                    unfold proposeCheckPrevious at hs
                    split at hs
                    · exact absurd hs (by simp)
                    · split at hs
                      · exact absurd hs (by simp)
                      · split at hs
                        · injection hs with hs
                          injection hs with ha hb
                          subst ha
                          exact roundMono_of_eq _ _ ((h3c.trans h2c).trans hAc)
                        · exact absurd hs (by simp)
              · injection hs with hs
                injection hs with ha hb
                subst ha
                exact roundMono_of_eq _ _ hAc

/-- C5: `update_committee_to_next_round` replaces the committee with its
next-round successor (round incremented by one), persists it into storage
keyed by the new round, clears the proposed slot and returns the new round
number; and across every Primary operation the committee round is
non-decreasing, with the proposed slot cleared whenever the round increases. -/
theorem c5_round_monotonic (env : Env) (st : PState) (peer bid : Nat) (sig : Signature)
    (ts : Int) (h : BatchHeader) (c : BatchCertificate) :
    ((update_committee_to_next_round st).1.committee = st.committee.to_next_round ∧
     (update_committee_to_next_round st).1.committee.round = st.committee.round + 1 ∧
     (update_committee_to_next_round st).1.storage.get_committee_for_round
        (st.committee.round + 1) = some st.committee.to_next_round ∧
     (update_committee_to_next_round st).1.proposedBatch = none ∧
     (update_committee_to_next_round st).2 = st.committee.round + 1) ∧
    (∀ st1 evs, propose_batch env st = some (st1, evs) → roundMono st st1) ∧
    roundMono st (process_batch_signature_from_peer env st peer bid sig ts).st ∧
    (∀ st1 evs, process_batch_propose_from_peer env st peer h = some (st1, evs) →
      roundMono st st1) ∧
    (∀ st1 evs, process_batch_certificate_from_peer env st c = some (st1, evs) →
      roundMono st st1) := by
  refine ⟨⟨rfl, rfl, ?_, rfl, rfl⟩,
    fun st1 evs hs => propose_batch_mono env st st1 evs hs,
    sig_from_peer_mono env st peer bid sig ts,
    fun st1 evs hs => propose_from_peer_mono env st peer h st1 evs hs,
    fun st1 evs hs => cert_from_peer_mono env st c st1 evs hs⟩
  simp [update_committee_to_next_round, Committee.to_next_round, Storage.insert_committee,
    Storage.get_committee_for_round, List.find?]

theorem c5_round_monotonic_witness : roundMono st9W st9W :=
  (c5_round_monotonic envBase st9W 0 0 ⟨0, 0⟩ 0 h8 c9W).2.2.2.2 st9W [] (by decide)

/-- C10: every guard failure of `process_batch_signature_from_peer` — batch id
not matching the proposed slot (including an empty slot), unresolvable peer,
non-member address, or failed signature verification — returns success with
all Primary state unchanged and no events; and an error return can only arise
in the certification stage, from a failed storage insertion of the constructed
certificate (the modelled quorum computation is total). -/
theorem c10_sig_drop_or_insert_error (env : Env) (st : PState) (peer bid : Nat)
    (sig : Signature) (ts : Int) :
    ((st.proposedBatch.map fun p => p.1.batchId) ≠ some bid →
      process_batch_signature_from_peer env st peer bid sig ts = ⟨st, [], false, false⟩) ∧
    (env.resolveAddr peer = none →
      process_batch_signature_from_peer env st peer bid sig ts = ⟨st, [], false, false⟩) ∧
    (∀ a, env.resolveAddr peer = some a → st.committee.is_committee_member a = false →
      process_batch_signature_from_peer env st peer bid sig ts = ⟨st, [], false, false⟩) ∧
    (∀ a, env.resolveAddr peer = some a → env.verify sig a bid ts = false →
      process_batch_signature_from_peer env st peer bid sig ts = ⟨st, [], false, false⟩) ∧
    ((process_batch_signature_from_peer env st peer bid sig ts).err = true →
      (process_batch_signature_from_peer env st peer bid sig ts).ready = true ∧
      ∃ b m, (sigInsertState env st sig ts).proposedBatch = some (b, m) ∧
        env.mkCertOk b.to_header m = true ∧
        env.insertOk ⟨env.certId b.to_header m, b.to_header, m⟩ = false) := by
  refine ⟨?_, ?_, ?_, ?_, ?_⟩
  · intro hmm
    unfold process_batch_signature_from_peer sigGuardAddr
    cases hpb : st.proposedBatch with
    | none => rfl
    | some p =>
      obtain ⟨b, m⟩ := p
      rw [hpb] at hmm
      have hb : ¬ b.batchId = bid := fun e => hmm (by simp [e])
      simp [hb]
  · intro hres
    unfold process_batch_signature_from_peer sigGuardAddr
    cases hpb : st.proposedBatch with
    | none => rfl
    | some p =>
      obtain ⟨b, m⟩ := p
      by_cases hb : b.batchId = bid <;> simp [hb, hres]
  · intro a hres hmem
    unfold process_batch_signature_from_peer sigGuardAddr
    cases hpb : st.proposedBatch with
    | none => rfl
    | some p =>
      obtain ⟨b, m⟩ := p
      by_cases hb : b.batchId = bid <;> simp [hb, hres, hmem]
  · intro a hres hver
    unfold process_batch_signature_from_peer sigGuardAddr
    cases hpb : st.proposedBatch with
    | none => rfl
    | some p =>
      obtain ⟨b, m⟩ := p
      by_cases hb : b.batchId = bid <;>
        by_cases hm : st.committee.is_committee_member a <;> simp [hb, hres, hver, hm]
  · intro herr
    unfold process_batch_signature_from_peer at herr ⊢
    revert herr
    cases hg : sigGuardAddr env st peer bid sig ts with
    | none =>
      intro herr
      exact absurd herr (by simp)
    | some a =>
      dsimp only
      by_cases hR : sigReady (sigInsertState env st sig ts)
      · rw [if_pos hR]
        intro herr
        refine ⟨sigCertify_ready env _, ?_⟩
        unfold sigCertify at herr
        revert herr
        cases hslot : (sigInsertState env st sig ts).proposedBatch with
        | none =>
          intro herr
          exact absurd herr (by simp)
        | some p =>
          obtain ⟨b, m⟩ := p
          dsimp only
          by_cases hmk : env.mkCertOk b.to_header m = true
          · rw [if_pos hmk]
            by_cases hins : env.insertOk ⟨env.certId b.to_header m, b.to_header, m⟩ = true
            · rw [if_pos hins]
              intro herr
              exact absurd herr (by simp)
            · intro herr
              exact ⟨b, m, rfl, hmk, by simpa using hins⟩
          · rw [if_neg hmk]
            intro herr
            exact absurd herr (by simp)
      · rw [if_neg hR]
        intro herr
        exact absurd herr (by simp)

theorem c10_sig_drop_or_insert_error_witness :
    process_batch_signature_from_peer envBase st8 0 5 ⟨0, 0⟩ 0 = ⟨st8, [], false, false⟩ :=
  (c10_sig_drop_or_insert_error envBase st8 0 5 ⟨0, 0⟩ 0).1 (by decide)

/-- C7: re-processing the same valid `BatchSignature` event is idempotent:
when the guards pass and the first processing stops short of certification,
the first processing returns the inserted state with no events and no error,
and processing the same event again on that state returns exactly that state —
in particular the signature map, and hence its size, does not change. -/
theorem c7_signature_idempotent (env : Env) (st : PState) (peer bid : Nat) (sig : Signature)
    (ts : Int) (hg : (sigGuardAddr env st peer bid sig ts).isSome = true)
    (hnr : (process_batch_signature_from_peer env st peer bid sig ts).ready = false) :
    process_batch_signature_from_peer env st peer bid sig ts =
      ⟨(process_batch_signature_from_peer env st peer bid sig ts).st, [], false, false⟩ ∧
    process_batch_signature_from_peer env
        (process_batch_signature_from_peer env st peer bid sig ts).st peer bid sig ts =
      ⟨(process_batch_signature_from_peer env st peer bid sig ts).st, [], false, false⟩ := by
  obtain ⟨a, hga0⟩ := Option.isSome_iff_exists.mp hg
  have hRfalse : sigReady (sigInsertState env st sig ts) = false := by
    cases hR : sigReady (sigInsertState env st sig ts) with
    | true =>
      have hcert : process_batch_signature_from_peer env st peer bid sig ts =
          sigCertify env (sigInsertState env st sig ts) := by
        unfold process_batch_signature_from_peer
        rw [hga0]
        dsimp only
        rw [if_pos hR]
      rw [hcert, sigCertify_ready] at hnr
      exact absurd hnr (by simp)
    | false => rfl
  have hfirst : process_batch_signature_from_peer env st peer bid sig ts =
      ⟨sigInsertState env st sig ts, [], false, false⟩ := by
    unfold process_batch_signature_from_peer
    rw [hga0]
    dsimp only
    rw [if_neg (by simp [hRfalse])]
  refine ⟨by rw [hfirst], ?_⟩
  rw [hfirst]
  show process_batch_signature_from_peer env (sigInsertState env st sig ts) peer bid sig ts =
    ⟨sigInsertState env st sig ts, [], false, false⟩
  have hga := hga0
  unfold sigGuardAddr at hga
  revert hga
  cases hpb : st.proposedBatch with
  | none =>
    intro hga
    exact absurd hga (by simp)
  | some p =>
    obtain ⟨b0, m0⟩ := p
    dsimp only
    intro hga
    by_cases hbid : b0.batchId = bid
    case neg =>
      rw [if_neg hbid] at hga
      exact absurd hga (by simp)
    rw [if_pos hbid] at hga
    revert hga
    cases hres : env.resolveAddr peer with
    | none =>
      intro hga
      exact absurd hga (by simp)
    | some a0 =>
      dsimp only
      intro hga
      by_cases hmem : st.committee.is_committee_member a0 = true
      case neg =>
        rw [if_neg hmem] at hga
        exact absurd hga (by simp)
      rw [if_pos hmem] at hga
      by_cases hver : env.verify sig a0 bid ts = true
      case neg =>
        rw [if_neg hver] at hga
        exact absurd hga (by simp)
      by_cases hexp : env.maxExpirationTimeInSecs < satSub64 env.now b0.timestamp
      · have h1 : sigInsertState env st sig ts = { st with proposedBatch := none } := by
          unfold sigInsertState check_proposed_batch_for_expiration
          rw [hpb]
          dsimp only
          rw [if_pos hexp]
          rfl
        rw [h1]
        rfl
      · have h1 : sigInsertState env st sig ts =
            { st with proposedBatch := some (b0, imInsert m0 sig ts) } := by
          unfold sigInsertState check_proposed_batch_for_expiration
          rw [hpb]
          dsimp only
          rw [if_neg hexp, hpb]
          rfl
        rw [h1] at hRfalse ⊢
        have hga2 : sigGuardAddr env { st with proposedBatch := some (b0, imInsert m0 sig ts) }
            peer bid sig ts = some a0 := by
          unfold sigGuardAddr
          dsimp only
          rw [if_pos hbid, hres]
          dsimp only
          rw [if_pos hmem, if_pos hver]
        have h2 : sigInsertState env { st with proposedBatch := some (b0, imInsert m0 sig ts) }
            sig ts = { st with proposedBatch := some (b0, imInsert m0 sig ts) } := by
          unfold sigInsertState check_proposed_batch_for_expiration
          dsimp only
          rw [if_neg hexp]
          dsimp only
          rw [Option.map_some']
          dsimp only
          rw [imInsert_imInsert]
        unfold process_batch_signature_from_peer
        rw [hga2]
        dsimp only
        rw [h2]
        rw [if_neg (by simp [hRfalse])]

theorem c7_signature_idempotent_witness :
    process_batch_signature_from_peer envBase
        (process_batch_signature_from_peer envBase stW7 7 5 ⟨2, 0⟩ 0).st 7 5 ⟨2, 0⟩ 0 =
      ⟨(process_batch_signature_from_peer envBase stW7 7 5 ⟨2, 0⟩ 0).st, [], false, false⟩ :=
  (c7_signature_idempotent envBase stW7 7 5 ⟨2, 0⟩ 0 (by decide) (by decide)).2

theorem sigCertify_slot_none (env : Env) (st : PState) :
    (sigCertify env st).st.proposedBatch = none := by
  unfold sigCertify
  split
  · assumption
  · dsimp only
    split
    · split
      · rfl
      · rfl
    · rfl

/-- C1: in `process_batch_signature_from_peer`, once the guards pass the
handler proceeds to certification exactly when the addresses of the
accumulated signatures together with the batch author's address reach the
current committee's quorum threshold; certification empties the proposed slot,
and — when the external certificate construction and the storage insertion
succeed — inserts exactly the constructed certificate into storage, broadcasts
`BatchCertified` for it, and advances the committee to the next round; so no
certificate enters storage through this handler without that quorum. -/
theorem c1_quorum_before_certify (env : Env) (st : PState) (peer bid : Nat) (sig : Signature)
    (ts : Int) :
    ((sigGuardAddr env st peer bid sig ts).isSome = true →
      ((process_batch_signature_from_peer env st peer bid sig ts).ready = true ↔
        ∃ b m, (sigInsertState env st sig ts).proposedBatch = some (b, m) ∧
          st.committee.is_quorum_threshold_reached
            ((m.map fun p => p.1.signer) ++ [b.signature.signer]) = true)) ∧
    ((process_batch_signature_from_peer env st peer bid sig ts).ready = true →
      (process_batch_signature_from_peer env st peer bid sig ts).st.proposedBatch = none) ∧
    (∀ b m, (process_batch_signature_from_peer env st peer bid sig ts).ready = true →
      (sigInsertState env st sig ts).proposedBatch = some (b, m) →
      env.mkCertOk b.to_header m = true →
      env.insertOk ⟨env.certId b.to_header m, b.to_header, m⟩ = true →
      (process_batch_signature_from_peer env st peer bid sig ts).st.storage.certificates =
        st.storage.certificates ++ [⟨env.certId b.to_header m, b.to_header, m⟩] ∧
      (process_batch_signature_from_peer env st peer bid sig ts).events =
        [Event.batchCertified ⟨env.certId b.to_header m, b.to_header, m⟩] ∧
      (process_batch_signature_from_peer env st peer bid sig ts).st.committee =
        st.committee.to_next_round) ∧
    (∀ c, c ∈ (process_batch_signature_from_peer env st peer bid sig ts).st.storage.certificates →
      c ∈ st.storage.certificates ∨
        st.committee.is_quorum_threshold_reached
          ((c.signatures.map fun p => p.1.signer) ++ [c.header.author]) = true) := by
  cases hga : sigGuardAddr env st peer bid sig ts with
  | none =>
    have hdrop : process_batch_signature_from_peer env st peer bid sig ts =
        ⟨st, [], false, false⟩ := by
      unfold process_batch_signature_from_peer
      rw [hga]
    refine ⟨?_, ?_, ?_, ?_⟩
    · intro hsome
      exact absurd hsome (by simp)
    · intro hr
      rw [hdrop] at hr
      exact absurd hr (by simp)
    · intro b m hr
      rw [hdrop] at hr
      exact absurd hr (by simp)
    · intro c hc
      rw [hdrop] at hc
      exact Or.inl hc
  | some a =>
    have hcom := sigInsertState_committee env st sig ts
    have hstor := sigInsertState_storage env st sig ts
    cases hR : sigReady (sigInsertState env st sig ts) with
    | false =>
      have hdrop : process_batch_signature_from_peer env st peer bid sig ts =
          ⟨sigInsertState env st sig ts, [], false, false⟩ := by
        unfold process_batch_signature_from_peer
        rw [hga]
        dsimp only
        rw [if_neg (by simp [hR])]
      refine ⟨?_, ?_, ?_, ?_⟩
      · intro _
        rw [hdrop]
        constructor
        · intro hr
          exact absurd hr (by simp)
        · rintro ⟨b, m, hbm, hq⟩
          exfalso
          have htrue : sigReady (sigInsertState env st sig ts) = true := by
            unfold sigReady
            rw [hbm, hcom]
            exact hq
          rw [htrue] at hR
          exact absurd hR (by decide)
      · intro hr
        rw [hdrop] at hr
        exact absurd hr (by simp)
      · intro b m hr
        rw [hdrop] at hr
        exact absurd hr (by simp)
      · intro c hc
        rw [hdrop] at hc
        dsimp only at hc
        rw [hstor] at hc
        exact Or.inl hc
    | true =>
      have hcert : process_batch_signature_from_peer env st peer bid sig ts =
          sigCertify env (sigInsertState env st sig ts) := by
        unfold process_batch_signature_from_peer
        rw [hga]
        dsimp only
        rw [if_pos hR]
      cases hslot : (sigInsertState env st sig ts).proposedBatch with
      | none =>
        exfalso
        unfold sigReady at hR
        rw [hslot] at hR
        exact absurd hR (by simp)
      | some p =>
        obtain ⟨b0, m0⟩ := p
        have hq0 : st.committee.is_quorum_threshold_reached
            ((m0.map fun p => p.1.signer) ++ [b0.signature.signer]) = true := by
          unfold sigReady at hR
          rw [hslot, hcom] at hR
          exact hR
        refine ⟨?_, ?_, ?_, ?_⟩
        · intro _
          rw [hcert]
          exact iff_of_true (sigCertify_ready env _) ⟨b0, m0, rfl, hq0⟩
        · intro _
          rw [hcert]
          exact sigCertify_slot_none env _
        · intro b m _ hbm hmk hins
          injection hbm with hbm
          injection hbm with h1 h2
          subst h1
          subst h2
          have hc2 : sigCertify env (sigInsertState env st sig ts) =
              ⟨(update_committee_to_next_round
                  { sigInsertState env st sig ts with
                    storage := (sigInsertState env st sig ts).storage.insert_certificate
                      ⟨env.certId b0.to_header m0, b0.to_header, m0⟩,
                    proposedBatch := none }).1,
               [Event.batchCertified ⟨env.certId b0.to_header m0, b0.to_header, m0⟩],
               false, true⟩ := by
            unfold sigCertify
            rw [hslot]
            dsimp only
            rw [if_pos hmk, if_pos hins]
          rw [hcert, hc2]
          refine ⟨?_, rfl, ?_⟩
          · simp [update_committee_to_next_round, Committee.to_next_round,
              Storage.insert_committee, Storage.insert_certificate, hstor]
          · simp [update_committee_to_next_round, Committee.to_next_round, hcom]
        · intro c hc
          rw [hcert] at hc
          unfold sigCertify at hc
          revert hc
          rw [hslot]
          dsimp only
          by_cases hmk : env.mkCertOk b0.to_header m0 = true
          · rw [if_pos hmk]
            by_cases hins : env.insertOk ⟨env.certId b0.to_header m0, b0.to_header, m0⟩ = true
            · rw [if_pos hins]
              intro hc
              dsimp only at hc
              simp only [update_committee_to_next_round, Storage.insert_committee,
                Storage.insert_certificate] at hc
              rw [hstor] at hc
              rcases List.mem_append.mp hc with hold | hnew
              · exact Or.inl hold
              · obtain rfl : c = ⟨env.certId b0.to_header m0, b0.to_header, m0⟩ :=
                  List.mem_singleton.mp hnew
                exact Or.inr hq0
            · rw [if_neg hins]
              intro hc
              dsimp only at hc
              rw [hstor] at hc
              exact Or.inl hc
          · rw [if_neg hmk]
            intro hc
            dsimp only at hc
            rw [hstor] at hc
            exact Or.inl hc

theorem c1_quorum_before_certify_witness :
    (process_batch_signature_from_peer envBase stW1 7 5 ⟨2, 0⟩ 0).st.proposedBatch = none :=
  (c1_quorum_before_certify envBase stW1 7 5 ⟨2, 0⟩ 0).2.1 (by decide)

theorem collectPreviousAuthors_some (s : Storage) (pr : Nat) (ids : List Nat) (l : List Addr)
    (h : collectPreviousAuthors s pr ids = some l) :
    ∀ id ∈ ids, ∃ c, s.get_certificate id = some c ∧ c.round = pr := by
  induction ids generalizing l with
  | nil =>
    intro id hid
    exact absurd hid (by simp)
  | cons i rest ih =>
    intro id hid
    unfold collectPreviousAuthors at h
    revert h
    cases hg : s.get_certificate i with
    | none =>
      intro h
      exact absurd h (by simp)
    | some c =>
      dsimp only
      intro h
      by_cases hr : c.round = pr
      case neg =>
        rw [if_neg hr] at h
        exact absurd h (by simp)
      rw [if_pos hr] at h
      revert h
      cases hrec : collectPreviousAuthors s pr rest with
      | none =>
        intro h
        exact absurd h (by simp)
      | some tail =>
        intro h
        rcases List.mem_cons.mp hid with rfl | hmem
        · exact ⟨c, hg, hr⟩
        · exact ih tail hrec id hmem

/-- C4: every `BatchPropose` with round above 1 that the handler answers with a
`BatchSignature` satisfies, in the state at signing time, that each listed
previous-certificate id resolves in storage to a certificate of round
`round - 1` and that the authors of those certificates reach the quorum
threshold of the committee stored for `round - 1`; and whenever the
resolution, the round equality, the committee lookup or the quorum check
fails, the previous-certificate verification stage returns an error and no
signature is sent. -/
theorem c4_propose_sign_previous_quorum (env : Env) (st : PState) (peer : Nat)
    (h : BatchHeader) (hr1 : 1 < h.round) :
    (∀ st1 evs, process_batch_propose_from_peer env st peer h = some (st1, evs) → evs ≠ [] →
      (∀ id ∈ h.previousCertificateIds,
        ∃ c, st1.storage.get_certificate id = some c ∧ c.round = h.round - 1) ∧
      ∃ pc auths,
        collectPreviousAuthors st1.storage (h.round - 1) h.previousCertificateIds = some auths ∧
        st1.storage.get_committee_for_round (h.round - 1) = some pc ∧
        pc.is_quorum_threshold_reached auths = true) ∧
    (∀ st3 : PState,
      (collectPreviousAuthors st3.storage (h.round - 1) h.previousCertificateIds = none ∨
        st3.storage.get_committee_for_round (h.round - 1) = none ∨
        (∃ pc auths,
          collectPreviousAuthors st3.storage (h.round - 1) h.previousCertificateIds = some auths ∧
          st3.storage.get_committee_for_round (h.round - 1) = some pc ∧
          pc.is_quorum_threshold_reached auths = false)) →
      proposeCheckPrevious env st3 peer h = none) := by
  constructor
  · intro st1 evs hs hne
    unfold process_batch_propose_from_peer at hs
    split at hs
    · split at hs
      · exact absurd hs (by simp)
      · injection hs with hs
        injection hs with ha hb
        subst hb
        exact absurd rfl hne
    · split at hs
      · exact absurd hs (by simp)
      · split at hs
        · exact absurd hs (by simp)
        · rename_i stA hA
          split at hs
          · exact absurd hs (by simp)
          · split at hs
            · exact absurd hs (by simp)
            · split at hs
              · exact absurd hs (by simp)
              · split at hs
                · split at hs
                  · exact absurd hs (by simp)
                  · rename_i st2 h2
                    split at hs
                    · exact absurd hs (by simp)
                    · rename_i st3 h3
                      unfold proposeCheckPrevious at hs
                      revert hs
                      cases hcol : collectPreviousAuthors st3.storage (h.round - 1)
                          h.previousCertificateIds with
                      | none =>
                        intro hs
                        exact absurd hs (by simp)
                      | some auths =>
                        dsimp only
                        cases hcomR : st3.storage.get_committee_for_round (h.round - 1) with
                        | none =>
                          intro hs
                          exact absurd hs (by simp)
                        | some pc =>
                          dsimp only
                          intro hs
                          by_cases hq : pc.is_quorum_threshold_reached auths = true
                          case neg =>
                            rw [if_neg hq] at hs
                            exact absurd hs (by simp)
                          rw [if_pos hq] at hs
                          injection hs with hs
                          injection hs with ha hb
                          subst ha
                          exact ⟨collectPreviousAuthors_some _ _ _ _ hcol,
                            pc, auths, hcol, hcomR, hq⟩
                · rename_i hprev
                  exact absurd (by omega : 0 < h.round - 1) hprev
  · intro st3 hfail
    unfold proposeCheckPrevious
    rcases hfail with hcol | hcomR | ⟨pc, auths, hcol, hcomR, hq⟩
    · rw [hcol]
    · cases hcol2 : collectPreviousAuthors st3.storage (h.round - 1)
          h.previousCertificateIds with
      | none => rfl
      | some auths =>
        dsimp only
        rw [hcomR]
    · rw [hcol]
      dsimp only
      rw [hcomR]
      dsimp only
      rw [if_neg (by simp [hq])]

theorem c4_propose_sign_previous_quorum_witness :
    (∀ id ∈ h4.previousCertificateIds,
      ∃ c, stW4.storage.get_certificate id = some c ∧ c.round = h4.round - 1) ∧
    ∃ pc auths,
      collectPreviousAuthors stW4.storage (h4.round - 1) h4.previousCertificateIds = some auths ∧
      stW4.storage.get_committee_for_round (h4.round - 1) = some pc ∧
      pc.is_quorum_threshold_reached auths = true :=
  (c4_propose_sign_previous_quorum envBase stW4 0 h4 (by decide)).1 stW4
    [Event.batchSignature 0 5 ⟨0, 0⟩ 1000] (by decide) (by decide)
